import Mathlib

/-!
Shallow embedding of `pytorch_pretrained_bert/tokenizer.py` (BERT tokenization
pipeline: vocabulary loading, BasicTokenizer, WordpieceTokenizer, the
BertTokenizer facade, and the SentencePieceTokenizer adapter), together with
theorems settling the specification claims about it.

The Python code consults external Unicode tables through `unicodedata`
(`category`, `normalize("NFD", .)`) and `str.lower`.  Those tables are external
data, so they are modelled as a parameter (`UData`); concrete theorems
instantiate it with a test table (`udTest`) that agrees with the real Unicode
tables on every code point the concrete inputs exercise (ASCII and the CJK
ideographs used below).
-/

/-- External Unicode data consumed by the tokenizer: `category` models
`unicodedata.category`, `nfd` models `unicodedata.normalize("NFD", .)`,
`lower` models Python `str.lower`. -/
structure UData where
  category : Char → String
  nfd : String → String
  lower : String → String

/-- Models Python `str.startswith` for a one-character needle (the code only
ever checks the first letter of a Unicode category string). -/
def catStartsWith (s : String) (c : Char) : Bool :=
  match s.toList with
  | d :: _ => d == c
  | [] => false

/-- Embeds `_is_whitespace`: literal space, tab, newline, carriage return, or
Unicode category `Zs`. -/
def is_whitespace (ud : UData) (c : Char) : Bool :=
  if c = ' ' ∨ c = '\t' ∨ c = '\n' ∨ c = '\r' then true
  else ud.category c == "Zs"

/-- Embeds `_is_control`: tab/newline/carriage-return are excluded, everything
whose category starts with `C` is control. -/
def is_control (ud : UData) (c : Char) : Bool :=
  if c = '\t' ∨ c = '\n' ∨ c = '\r' then false
  else catStartsWith (ud.category c) 'C'

/-- Embeds `_is_punctuation`: the four ASCII ranges 33-47, 58-64, 91-96,
123-126, or a Unicode category starting with `P`. -/
def is_punctuation (ud : UData) (c : Char) : Bool :=
  let cp := c.toNat
  if (33 ≤ cp ∧ cp ≤ 47) ∨ (58 ≤ cp ∧ cp ≤ 64) ∨ (91 ≤ cp ∧ cp ≤ 96) ∨
      (123 ≤ cp ∧ cp ≤ 126) then true
  else catStartsWith (ud.category c) 'P'

/-- The exact set of code points Python `str` treats as whitespace for
`str.strip()` / `str.split()` (CPython's Unicode whitespace table). -/
def isPySpace (c : Char) : Bool :=
  c.toNat ∈ [0x09, 0x0A, 0x0B, 0x0C, 0x0D, 0x1C, 0x1D, 0x1E, 0x1F, 0x20,
    0x85, 0xA0, 0x1680, 0x2000, 0x2001, 0x2002, 0x2003, 0x2004, 0x2005,
    0x2006, 0x2007, 0x2008, 0x2009, 0x200A, 0x2028, 0x2029, 0x202F,
    0x205F, 0x3000]

/-- Models Python `str.strip()` (no argument): drop whitespace from both
ends. -/
def pyStrip (l : List Char) : List Char :=
  ((l.dropWhile isPySpace).reverse.dropWhile isPySpace).reverse

/-- String version of `pyStrip`. -/
def pyStripStr (s : String) : String :=
  String.mk (pyStrip s.toList)

/-- Helper for Python `str.split()` (no argument): accumulates the current
word, reversed, and emits words at whitespace boundaries. -/
def pySplitAux : List Char → List Char → List String
  | [], cur => if cur.isEmpty then [] else [String.mk cur.reverse]
  | c :: rest, cur =>
    if isPySpace c then
      if cur.isEmpty then pySplitAux rest []
      else String.mk cur.reverse :: pySplitAux rest []
    else pySplitAux rest (c :: cur)

/-- Models Python `str.split()` (no argument): split on whitespace runs,
emitting no empty words. -/
def pySplitList (l : List Char) : List String :=
  pySplitAux l []

/-- Embeds `whitespace_tokenize`: strip, return `[]` when empty, else
split. -/
def whitespace_tokenize (text : String) : List String :=
  let stripped := pyStrip text.toList
  if stripped.isEmpty then [] else pySplitList stripped

/-- Embeds the per-character loop of `BasicTokenizer._clean_text`: drop NUL,
U+FFFD and control characters, replace whitespace by a single space. -/
def cleanList (ud : UData) : List Char → List Char
  | [] => []
  | c :: rest =>
    if c.toNat = 0 ∨ c.toNat = 0xFFFD ∨ is_control ud c then cleanList ud rest
    else if is_whitespace ud c then ' ' :: cleanList ud rest
    else c :: cleanList ud rest

/-- Embeds `BasicTokenizer._clean_text`. -/
def clean_text (ud : UData) (text : String) : String :=
  String.mk (cleanList ud text.toList)

/-- Embeds `BasicTokenizer._is_chinese_char`: the eight CJK code point
ranges. -/
def is_chinese_char (cp : Nat) : Bool :=
  if (0x4E00 ≤ cp ∧ cp ≤ 0x9FFF) ∨ (0x3400 ≤ cp ∧ cp ≤ 0x4DBF) ∨
      (0x20000 ≤ cp ∧ cp ≤ 0x2A6DF) ∨ (0x2A700 ≤ cp ∧ cp ≤ 0x2B73F) ∨
      (0x2B740 ≤ cp ∧ cp ≤ 0x2B81F) ∨ (0x2B820 ≤ cp ∧ cp ≤ 0x2CEAF) ∨
      (0xF900 ≤ cp ∧ cp ≤ 0xFAFF) ∨ (0x2F800 ≤ cp ∧ cp ≤ 0x2FA1F) then true
  else false

/-- The eight CJK ranges as a proposition, stated the way the specification
lists them (for comparison with `is_chinese_char`). -/
abbrev inCJKRanges (cp : Nat) : Prop :=
  (0x4E00 ≤ cp ∧ cp ≤ 0x9FFF) ∨ (0x3400 ≤ cp ∧ cp ≤ 0x4DBF) ∨
  (0x20000 ≤ cp ∧ cp ≤ 0x2A6DF) ∨ (0x2A700 ≤ cp ∧ cp ≤ 0x2B73F) ∨
  (0x2B740 ≤ cp ∧ cp ≤ 0x2B81F) ∨ (0x2B820 ≤ cp ∧ cp ≤ 0x2CEAF) ∨
  (0xF900 ≤ cp ∧ cp ≤ 0xFAFF) ∨ (0x2F800 ≤ cp ∧ cp ≤ 0x2FA1F)

/-- Embeds the per-character loop of `BasicTokenizer._tokenize_chinese_chars`:
a space before and after every CJK character, other characters copied. -/
def cjkList : List Char → List Char
  | [] => []
  | c :: rest =>
    if is_chinese_char c.toNat then ' ' :: c :: ' ' :: cjkList rest
    else c :: cjkList rest

/-- Embeds `BasicTokenizer._tokenize_chinese_chars`. -/
def tokenize_chinese_chars (text : String) : String :=
  String.mk (cjkList text.toList)

/-- Embeds `BasicTokenizer._run_strip_accents`: NFD-normalize, drop every
character of category `Mn`. -/
def run_strip_accents (ud : UData) (text : String) : String :=
  String.mk ((ud.nfd text).toList.filter (fun c => !(ud.category c == "Mn")))

/-- Python `output[-1].append(char)`: append a character to the last group. -/
def appendToLast : List (List Char) → Char → List (List Char)
  | [], c => [[c]]
  | [last], c => [last ++ [c]]
  | x :: rest, c => x :: appendToLast rest c

/-- Embeds the character loop of `BasicTokenizer._run_split_on_punc`: each
punctuation character becomes its own group, other characters extend the
current group (`start_new_word` tracks group boundaries). -/
def splitPuncCore (ud : UData) : List Char → Bool → List (List Char) → List (List Char)
  | [], _, output => output
  | c :: rest, start_new_word, output =>
    if is_punctuation ud c then splitPuncCore ud rest true (output ++ [[c]])
    else
      splitPuncCore ud rest false
        (if start_new_word then output ++ [[c]] else appendToLast output c)

/-- Embeds `BasicTokenizer._run_split_on_punc`: tokens in `never_split` are
returned whole; otherwise split into punctuation/non-punctuation groups. -/
def run_split_on_punc (ud : UData) (never_split : List String) (text : String) :
    List String :=
  if never_split.contains text then [text]
  else (splitPuncCore ud text.toList true []).map (fun x => String.mk x)

/-- The body of the token loop in `BasicTokenizer.tokenize`: lower-case and
strip accents unless the token is reserved, then split on punctuation. -/
def basicPerToken (ud : UData) (do_lower_case : Bool) (never_split : List String)
    (token : String) : List String :=
  let token :=
    if do_lower_case && !(never_split.contains token) then
      run_strip_accents ud (ud.lower token)
    else token
  run_split_on_punc ud never_split token

/-- Embeds `BasicTokenizer.tokenize`: clean, CJK-space, whitespace-split,
per-token normalize and punctuation-split, then re-join and re-split. -/
def basicTokenize (ud : UData) (do_lower_case : Bool) (never_split : List String)
    (text : String) : List String :=
  let text := clean_text ud text
  let text := tokenize_chinese_chars text
  let orig_tokens := whitespace_tokenize text
  let split_tokens :=
    orig_tokens.foldl (fun acc token => acc ++ basicPerToken ud do_lower_case never_split token) []
  whitespace_tokenize (String.intercalate " " split_tokens)

/-- The default `never_split` tuple of `BertTokenizer` / `BasicTokenizer`. -/
def defaultNeverSplit : List String :=
  ["[UNK]", "[SEP]", "[PAD]", "[CLS]", "[MASK]"]

/-- Models Python `str.lower`: per-character lowercasing (exact on the ASCII
inputs exercised below; identity on characters without a lowercase form). -/
def strLower (s : String) : String :=
  String.mk (s.toList.map Char.toLower)

/-- Test instance of the external Unicode tables, accurate on every code
point the concrete inputs below use: ASCII controls are `Cc`, space is `Zs`,
digits `Nd`, letters `Lu`/`Ll`, remaining printable ASCII is reported with a
`P` category (the classifier consults the category only for code points
outside the four ASCII punctuation ranges, so this is observationally exact
on ASCII), and the non-ASCII characters exercised (CJK ideographs) are `Lo`.
NFD is the identity on all these code points, and `strLower` matches
`str.lower` on them. -/
def catTest (c : Char) : String :=
  if c.toNat < 32 ∨ c.toNat = 127 then "Cc"
  else if c = ' ' then "Zs"
  else if '0' ≤ c ∧ c ≤ '9' then "Nd"
  else if 'A' ≤ c ∧ c ≤ 'Z' then "Lu"
  else if 'a' ≤ c ∧ c ≤ 'z' then "Ll"
  else if c.toNat < 127 then "Po"
  else "Lo"

/-- The test Unicode table (see `catTest`). -/
def udTest : UData :=
  { category := catTest, nfd := fun s => s, lower := strLower }

/-- Error surface of the id-conversion layer: a missing token (Python
`KeyError` on `self.vocab[token]`), too many ids (`ValueError`), and a missing
id (`KeyError` on `self.ids_to_tokens[i]`). -/
inductive TokenizerError where
  | unknownToken : String → TokenizerError
  | sequenceTooLong : Nat → Nat → TokenizerError
  | invalidId : Nat → TokenizerError
deriving DecidableEq

/-- Ordered-dictionary insert (`vocab[token] = index`): an existing key keeps
its position and gets the new value, a new key is appended. -/
def dictInsert : List (String × Nat) → String → Nat → List (String × Nat)
  | [], k, v => [(k, v)]
  | (k', v') :: rest, k, v =>
    if k' = k then (k', v) :: rest else (k', v') :: dictInsert rest k v

/-- Dictionary lookup (`vocab[token]`), first matching key. -/
def dictLookup : List (String × Nat) → String → Option Nat
  | [], _ => none
  | (k', v') :: rest, k => if k' = k then some v' else dictLookup rest k

/-- The `while` loop of `load_vocab`: each line is `strip`ped and inserted
with the running index. -/
def loadVocabLoop : List String → List (String × Nat) → Nat → List (String × Nat)
  | [], vocab, _ => vocab
  | line :: rest, vocab, index =>
    loadVocabLoop rest (dictInsert vocab (pyStripStr line) index) (index + 1)

/-- Embeds `load_vocab`; the input is the file's raw lines, each still
carrying its line terminator, as returned by `readline`. -/
def load_vocab (lines : List String) : List (String × Nat) :=
  loadVocabLoop lines [] 0

/-- Embeds the `ids_to_tokens` construction of `BertTokenizer.__init__`:
the vocabulary dictionary with every pair swapped. -/
def ids_to_tokens (vocab : List (String × Nat)) : List (Nat × String) :=
  vocab.map (fun p => (p.2, p.1))

/-- Dictionary lookup (`self.ids_to_tokens[i]`), first matching key. -/
def idLookup : List (Nat × String) → Nat → Option String
  | [], _ => none
  | (k', v') :: rest, k => if k' = k then some v' else idLookup rest k

/-- The id-building loop of `convert_tokens_to_ids`: one lookup per token,
the first missing token raises. -/
def lookupIds (vocab : List (String × Nat)) : List String → Except TokenizerError (List Nat)
  | [] => Except.ok []
  | t :: ts =>
    match dictLookup vocab t with
    | some i =>
      match lookupIds vocab ts with
      | Except.ok ids => Except.ok (i :: ids)
      | Except.error e => Except.error e
    | none => Except.error (TokenizerError.unknownToken t)

/-- Embeds `BertTokenizer.convert_tokens_to_ids` (vocabulary backend): build
all ids, then fail if their count exceeds `max_len`.  An error carries no
partial id list. -/
def convert_tokens_to_ids (vocab : List (String × Nat)) (max_len : Nat)
    (tokens : List String) : Except TokenizerError (List Nat) :=
  match lookupIds vocab tokens with
  | Except.ok ids =>
    if ids.length > max_len then
      Except.error (TokenizerError.sequenceTooLong ids.length max_len)
    else Except.ok ids
  | Except.error e => Except.error e

/-- The token-building loop of `convert_ids_to_tokens`: one inverse lookup per
id, the first missing id raises. -/
def lookupTokens (inv : List (Nat × String)) : List Nat → Except TokenizerError (List String)
  | [] => Except.ok []
  | i :: is =>
    match idLookup inv i with
    | some t =>
      match lookupTokens inv is with
      | Except.ok ts => Except.ok (t :: ts)
      | Except.error e => Except.error e
    | none => Except.error (TokenizerError.invalidId i)

/-- Embeds `BertTokenizer.convert_ids_to_tokens` (vocabulary backend). -/
def convert_ids_to_tokens (vocab : List (String × Nat)) (ids : List Nat) :
    Except TokenizerError (List String) :=
  lookupTokens (ids_to_tokens vocab) ids

/-- The inner `while start < end` loop of `WordpieceTokenizer.tokenize`, as a
function of the current `end` (structural recursion on `end`): the longest
substring `chars[start:end]` (with a `##` continuation marker when
`start > 0`) present in the vocabulary, together with the `end` where it was
found. -/
def findLongest (vocab : List (String × Nat)) (chars : List Char) (start : Nat) :
    Nat → Option (String × Nat)
  | 0 => none
  | e + 1 =>
    if start < e + 1 then
      let substr := String.mk ((chars.drop start).take (e + 1 - start))
      let substr := if 0 < start then "##" ++ substr else substr
      if (dictLookup vocab substr).isSome then some (substr, e + 1)
      else findLongest vocab chars start e
    else none

/-- The outer `while start < len(chars)` loop of `WordpieceTokenizer.tokenize`.
`none` is the `is_bad` outcome.  The `fuel` argument only bounds the number of
iterations so the recursion is structural: the caller passes
`chars.length + 1`, which is never exhausted because every iteration strictly
increases `start`. -/
def wpLoop (vocab : List (String × Nat)) (chars : List Char) :
    Nat → Nat → List String → Option (List String)
  | 0, _, _ => none
  | fuel + 1, start, sub_tokens =>
    if start < chars.length then
      match findLongest vocab chars start chars.length with
      | none => none
      | some (substr, e) => wpLoop vocab chars fuel e (sub_tokens ++ [substr])
    else some sub_tokens

/-- Embeds `WordpieceTokenizer.tokenize`: per whitespace-separated token,
over-long tokens become the unknown marker, otherwise greedy longest-match
segmentation, falling back to the unknown marker when some position has no
match. -/
def wordpieceTokenize (vocab : List (String × Nat)) (unk_token : String)
    (max_input_chars_per_word : Nat) (text : String) : List String :=
  (whitespace_tokenize text).foldl
    (fun output_tokens token =>
      let chars := token.toList
      if chars.length > max_input_chars_per_word then output_tokens ++ [unk_token]
      else
        match wpLoop vocab chars (chars.length + 1) 0 [] with
        | none => output_tokens ++ [unk_token]
        | some sub_tokens => output_tokens ++ sub_tokens)
    []

/-- Embeds `BertTokenizer.tokenize`: run the basic tokenizer, then route each
word-level token through the configured subword backend
(`wordpiece_tokenizer.tokenize` or `sentencepiece.encode_as_pieces`) and
concatenate. -/
def bertTokenize (ud : UData) (do_lower_case : Bool) (never_split : List String)
    (backend : String → List String) (text : String) : List String :=
  (basicTokenize ud do_lower_case never_split text).foldl
    (fun split_tokens token => split_tokens ++ backend token) []

/-- The opaque external SentencePiece model (`spm.SentencePieceProcessor`):
only the operations the adapter calls, with unconstrained behavior. -/
structure SpmModel where
  encodeAsIds : String → List Nat
  decodeIds : List Nat → String
  pieceToId : String → Nat
  idToPiece : Nat → String
  encodeAsPieces : String → List String

/-- Embeds the state of `SentencePieceTokenizer.__init__` (minus the file
load): the wrapped external model and the configuration flags. -/
structure SentencePieceTokenizer where
  spm : SpmModel
  do_lower_case : Bool
  wordpiece_mode : Bool
  unk_token : String

/-- The `unk_token_id` field computed in `__init__`. -/
def unk_token_id (t : SentencePieceTokenizer) : Nat :=
  t.spm.pieceToId t.unk_token

/-- The `unused_token_id` field computed in `__init__`: the id the external
model binds to the reserved placeholder piece. -/
def unused_token_id (t : SentencePieceTokenizer) : Nat :=
  t.spm.pieceToId "[unused]"

/-- Embeds `SentencePieceTokenizer.__correct_unk_id`. -/
def correct_unk_id (t : SentencePieceTokenizer) (i : Nat) : Nat :=
  if i = unused_token_id t then unk_token_id t else i

/-- Substring test on character lists, used to model the regular expression
match below. -/
def containsSub (needle : List Char) : List Char → Bool
  | [] => needle.isEmpty
  | c :: rest => needle.isPrefixOf (c :: rest) || containsSub needle rest

/-- Models `re.sub` with the pattern built in `__init__`
(non-whitespace-run containing `unk_token`): every maximal run of
non-whitespace characters that contains `unk_token` as a substring is
replaced by `unk_token` itself; whitespace is copied verbatim.  The second
argument is the current run, reversed. -/
def wpSubAux (unk : List Char) : List Char → List Char → List Char
  | [], cur =>
    if cur.isEmpty then []
    else if containsSub unk cur.reverse then unk else cur.reverse
  | c :: rest, cur =>
    if isPySpace c then
      (if cur.isEmpty then []
       else if containsSub unk cur.reverse then unk else cur.reverse) ++
        c :: wpSubAux unk rest []
    else wpSubAux unk rest (c :: cur)

/-- Embeds `SentencePieceTokenizer.decode_ids`: correct every incoming id,
detokenize through the external model, and in wordpiece mode collapse every
non-whitespace run containing the unknown marker to the marker itself. -/
def decode_ids (t : SentencePieceTokenizer) (ids : List Nat) : String :=
  let sentence := t.spm.decodeIds (ids.map (correct_unk_id t))
  if t.wordpiece_mode then
    String.mk (wpSubAux t.unk_token.toList sentence.toList [])
  else sentence

/-- Embeds `SentencePieceTokenizer.encode_as_ids`: optional lower-casing, a
first external encode, correction-and-decode through `decode_ids`, then a
second external encode whose output is returned as is. -/
def encode_as_ids (t : SentencePieceTokenizer) (sentence : String) : List Nat :=
  let sentence := if t.do_lower_case then strLower sentence else sentence
  t.spm.encodeAsIds (decode_ids t (t.spm.encodeAsIds sentence))

/-- Embeds `SentencePieceTokenizer.encode_as_pieces`. -/
def encode_as_pieces (t : SentencePieceTokenizer) (sentence : String) : List String :=
  t.spm.encodeAsPieces (decode_ids t (encode_as_ids t sentence))

/-- Embeds `SentencePieceTokenizer.id_to_piece`: the incoming id is
corrected before consulting the external model. -/
def id_to_piece (t : SentencePieceTokenizer) (i : Nat) : String :=
  t.spm.idToPiece (correct_unk_id t i)

/-- Embeds `SentencePieceTokenizer.piece_to_id`: optional lower-casing, then
the external lookup with its result corrected. -/
def piece_to_id (t : SentencePieceTokenizer) (piece : String) : Nat :=
  let piece := if t.do_lower_case then strLower piece else piece
  correct_unk_id t (t.spm.pieceToId piece)

/-- Embeds `SentencePieceTokenizer.decode_pieces`. -/
def decode_pieces (t : SentencePieceTokenizer) (pieces : List String) : String :=
  decode_ids t (pieces.map (piece_to_id t))

/-- A concrete external model on which the re-encode pass of `encode_as_ids`
emits the placeholder id itself: encoding `"a"` yields the placeholder id 0,
decoding the corrected ids `[1]` yields `"X"`, and re-encoding `"X"` yields
the placeholder id 0 again. -/
def spmM : SpmModel where
  encodeAsIds := fun s => if s = "a" then [0] else if s = "X" then [0] else [2]
  decodeIds := fun ids => if ids = [1] then "X" else "Y"
  pieceToId := fun p => if p = "[unused]" then 0 else if p = "[unk]" then 1 else 2
  idToPiece := fun i => if i = 1 then "[unk]" else "Z"
  encodeAsPieces := fun _ => []

/-- Adapter around `spmM`. -/
def tokM : SentencePieceTokenizer :=
  { spm := spmM, do_lower_case := false, wordpiece_mode := false,
    unk_token := "[unk]" }

/-- A concrete external model on which the double pass of `encode_as_ids`
differs from a single encode call: encoding `"a"` yields `[5]`, decoding
`[5]` yields `"X"`, and re-encoding `"X"` yields `[7]`. -/
def spmN : SpmModel where
  encodeAsIds := fun s => if s = "a" then [5] else if s = "X" then [7] else []
  decodeIds := fun ids => if ids = [5] then "X" else ""
  pieceToId := fun p => if p = "[unused]" then 0 else if p = "[unk]" then 1 else 9
  idToPiece := fun _ => ""
  encodeAsPieces := fun _ => []

/-- Adapter around `spmN`. -/
def tokN : SentencePieceTokenizer :=
  { spm := spmN, do_lower_case := false, wordpiece_mode := false,
    unk_token := "[unk]" }

/-- The vocabulary of the specification's WordPiece example. -/
def vocabEx : List (String × Nat) :=
  [("un", 0), ("##aff", 1), ("##able", 2), ("[UNK]", 3)]

/-- A vocabulary on which greedy segmentation finds a first piece and then
gets stuck, forcing the whole token to the unknown marker. -/
def vocabAbandon : List (String × Nat) :=
  [("un", 0), ("[UNK]", 1)]

/-- Decidable equality for `Except`, so concrete conversion outcomes can be
checked by evaluation. -/
instance {e a : Type} [DecidableEq e] [DecidableEq a] : DecidableEq (Except e a) :=
  fun x y =>
    match x, y with
    | Except.ok u, Except.ok v =>
      if h : u = v then Decidable.isTrue (by rw [h])
      else Decidable.isFalse (fun he => h (Except.ok.inj he))
    | Except.error u, Except.error v =>
      if h : u = v then Decidable.isTrue (by rw [h])
      else Decidable.isFalse (fun he => h (Except.error.inj he))
    | Except.ok _, Except.error _ => Decidable.isFalse (fun he => Except.noConfusion he)
    | Except.error _, Except.ok _ => Decidable.isFalse (fun he => Except.noConfusion he)

/-- Specification helper: the position of the last line whose stripped
content equals `t`, if any.  `load_vocab`'s lookup behavior is characterized
against this function. -/
def lastStripIdx : List String → String → Option Nat
  | [], _ => none
  | line :: rest, t =>
    match lastStripIdx rest t with
    | some i => some (i + 1)
    | none => if pyStripStr line = t then some 0 else none

theorem mk_toList : ∀ s : String, String.mk s.toList = s
  | ⟨_⟩ => rfl

theorem dropWhile_eq_self_of (p : Char → Bool) (l : List Char)
    (h : ∀ c ∈ l, p c = false) : l.dropWhile p = l := by
  cases l with
  | nil => rfl
  | cons c rest => simp [List.dropWhile_cons, h c (by simp)]

theorem dropWhile_eq_nil_of (p : Char → Bool) (l : List Char)
    (h : ∀ c ∈ l, p c = true) : l.dropWhile p = [] := by
  induction l with
  | nil => rfl
  | cons c rest ih =>
    simp only [List.dropWhile_cons, h c (by simp)]
    exact ih (fun d hd => h d (by simp [hd]))

theorem pyStrip_of_nospace (l : List Char) (h : ∀ c ∈ l, isPySpace c = false) :
    pyStrip l = l := by
  unfold pyStrip
  rw [dropWhile_eq_self_of _ _ h]
  rw [dropWhile_eq_self_of _ _ (fun c hc => h c (List.mem_reverse.mp hc))]
  exact l.reverse_reverse

theorem pyStrip_of_allspace (l : List Char) (h : ∀ c ∈ l, isPySpace c = true) :
    pyStrip l = [] := by
  unfold pyStrip
  rw [dropWhile_eq_nil_of _ _ h]
  rfl

theorem pySplitAux_nospace (l : List Char) :
    ∀ cur : List Char, (∀ c ∈ l, isPySpace c = false) →
      pySplitAux l cur =
        if (cur.reverse ++ l).isEmpty then [] else [String.mk (cur.reverse ++ l)] := by
  induction l with
  | nil =>
    intro cur _
    by_cases hc : cur = [] <;> simp [pySplitAux, hc, List.isEmpty_iff]
  | cons c rest ih =>
    intro cur h
    rw [pySplitAux, if_neg (by simp [h c (by simp)])]
    rw [ih (c :: cur) (fun d hd => h d (by simp [hd]))]
    simp [List.isEmpty_iff]

theorem whitespace_tokenize_single (s : String) (h1 : s.toList ≠ [])
    (h2 : ∀ c ∈ s.toList, isPySpace c = false) :
    whitespace_tokenize s = [s] := by
  unfold whitespace_tokenize
  rw [pyStrip_of_nospace _ h2]
  rw [if_neg (by simpa [List.isEmpty_iff] using h1)]
  unfold pySplitList
  rw [pySplitAux_nospace _ [] h2]
  simp only [List.reverse_nil, List.nil_append]
  rw [if_neg (by simpa [List.isEmpty_iff] using h1), mk_toList]

theorem whitespace_tokenize_allspace (s : String)
    (h : ∀ c ∈ s.toList, isPySpace c = true) :
    whitespace_tokenize s = [] := by
  unfold whitespace_tokenize
  rw [pyStrip_of_allspace _ h]
  rfl

theorem dictLookup_dictInsert_self (d : List (String × Nat)) (k : String) (v : Nat) :
    dictLookup (dictInsert d k v) k = some v := by
  induction d with
  | nil => simp [dictInsert, dictLookup]
  | cons p rest ih =>
    obtain ⟨a, b⟩ := p
    by_cases h : a = k <;> simp [dictInsert, dictLookup, h, ih]

theorem dictLookup_dictInsert_ne (d : List (String × Nat)) (k : String) (v : Nat)
    (k' : String) (h : k ≠ k') :
    dictLookup (dictInsert d k v) k' = dictLookup d k' := by
  induction d with
  | nil => simp [dictInsert, dictLookup, h]
  | cons p rest ih =>
    obtain ⟨a, b⟩ := p
    by_cases ha : a = k
    · subst ha
      simp [dictInsert, dictLookup, h]
    · by_cases ha' : a = k'
      · subst ha'
        simp [dictInsert, dictLookup, ha]
      · simp [dictInsert, dictLookup, ha, ha', ih]

theorem lookup_loadVocabLoop (lines : List String) :
    ∀ (d : List (String × Nat)) (n : Nat) (t : String),
      dictLookup (loadVocabLoop lines d n) t =
        match lastStripIdx lines t with
        | some i => some (n + i)
        | none => dictLookup d t := by
  induction lines with
  | nil => intro d n t; rfl
  | cons line rest ih =>
    intro d n t
    rw [loadVocabLoop, ih]
    cases h : lastStripIdx rest t with
    | some i =>
      simp only [lastStripIdx, h]
      congr 1
      omega
    | none =>
      simp only [lastStripIdx, h]
      by_cases hl : pyStripStr line = t
      · subst hl
        simp [dictLookup_dictInsert_self]
      · rw [dictLookup_dictInsert_ne _ _ _ _ hl, if_neg hl]

theorem lookup_load_vocab (lines : List String) (t : String) :
    dictLookup (load_vocab lines) t =
      match lastStripIdx lines t with
      | some i => some i
      | none => none := by
  unfold load_vocab
  rw [lookup_loadVocabLoop]
  cases h : lastStripIdx lines t <;> simp [dictLookup]

theorem lastStripIdx_lt (lines : List String) (t : String) :
    ∀ i, lastStripIdx lines t = some i →
      i < lines.length ∧ pyStripStr (lines.getD i "") = t := by
  induction lines with
  | nil => intro i h; exact absurd h (by simp [lastStripIdx])
  | cons line rest ih =>
    intro i h
    rw [lastStripIdx] at h
    cases hr : lastStripIdx rest t with
    | some j =>
      rw [hr] at h
      obtain ⟨hlt, hget⟩ := ih j hr
      cases h
      exact ⟨by simp; omega, by simpa [List.getD] using hget⟩
    | none =>
      rw [hr] at h
      by_cases hl : pyStripStr line = t
      · rw [if_pos hl] at h
        cases h
        exact ⟨by simp, by simpa [List.getD] using hl⟩
      · rw [if_neg hl] at h
        exact absurd h (by simp)

theorem lastStripIdx_none (lines : List String) (t : String)
    (h : lastStripIdx lines t = none) :
    ∀ j, j < lines.length → pyStripStr (lines.getD j "") ≠ t := by
  induction lines with
  | nil => intro j hj; simp at hj
  | cons line rest ih =>
    intro j hj
    rw [lastStripIdx] at h
    cases hr : lastStripIdx rest t with
    | some k => rw [hr] at h; exact absurd h (by simp)
    | none =>
      rw [hr] at h
      by_cases hl : pyStripStr line = t
      · rw [if_pos hl] at h; exact absurd h (by simp)
      · cases j with
        | zero => simpa [List.getD] using hl
        | succ j' =>
          have := ih hr j' (by simpa using hj)
          simpa [List.getD] using this

theorem lastStripIdx_max (lines : List String) (t : String) :
    ∀ i, lastStripIdx lines t = some i →
      ∀ j, i < j → j < lines.length → pyStripStr (lines.getD j "") ≠ t := by
  induction lines with
  | nil => intro i h; exact absurd h (by simp [lastStripIdx])
  | cons line rest ih =>
    intro i h j hij hj
    rw [lastStripIdx] at h
    cases hr : lastStripIdx rest t with
    | some k =>
      rw [hr] at h
      cases h
      cases j with
      | zero => omega
      | succ j' =>
        have := ih k hr j' (by omega) (by simpa using hj)
        simpa [List.getD] using this
    | none =>
      rw [hr] at h
      by_cases hl : pyStripStr line = t
      · rw [if_pos hl] at h
        cases h
        cases j with
        | zero => omega
        | succ j' =>
          have := lastStripIdx_none rest t hr j' (by simpa using hj)
          simpa [List.getD] using this
      · rw [if_neg hl] at h
        exact absurd h (by simp)

theorem lastStripIdx_ge (lines : List String) (t : String) :
    ∀ j, j < lines.length → pyStripStr (lines.getD j "") = t →
      ∃ k, lastStripIdx lines t = some k ∧ j ≤ k := by
  induction lines with
  | nil => intro j hj; simp at hj
  | cons line rest ih =>
    intro j hj ht
    cases j with
    | zero =>
      cases hr : lastStripIdx rest t with
      | some i => exact ⟨i + 1, by simp [lastStripIdx, hr], by omega⟩
      | none =>
        refine ⟨0, ?_, le_refl 0⟩
        simp only [lastStripIdx, hr]
        rw [if_pos (by simpa [List.getD] using ht)]
    | succ j' =>
      obtain ⟨k, hk, hjk⟩ := ih j' (by simpa using hj) (by simpa [List.getD] using ht)
      exact ⟨k + 1, by simp [lastStripIdx, hk], by omega⟩

theorem mem_dictInsert (d : List (String × Nat)) (k : String) (v : Nat)
    (p : String × Nat) (h : p ∈ dictInsert d k v) : p = (k, v) ∨ p ∈ d := by
  induction d with
  | nil => simpa [dictInsert] using h
  | cons q rest ih =>
    obtain ⟨a, b⟩ := q
    by_cases ha : a = k
    · subst ha
      rw [dictInsert, if_pos rfl] at h
      rcases List.mem_cons.mp h with h1 | h1
      · exact Or.inl h1
      · exact Or.inr (List.mem_cons.mpr (Or.inr h1))
    · rw [dictInsert, if_neg ha] at h
      rcases List.mem_cons.mp h with h1 | h1
      · exact Or.inr (List.mem_cons.mpr (Or.inl h1))
      · rcases ih h1 with h2 | h2
        · exact Or.inl h2
        · exact Or.inr (List.mem_cons.mpr (Or.inr h2))

theorem keys_dictInsert (d : List (String × Nat)) (k : String) (v : Nat) :
    (dictInsert d k v).map Prod.fst =
      if k ∈ d.map Prod.fst then d.map Prod.fst else d.map Prod.fst ++ [k] := by
  induction d with
  | nil => simp [dictInsert]
  | cons q rest ih =>
    obtain ⟨a, b⟩ := q
    by_cases ha : a = k
    · subst ha
      simp [dictInsert]
    · rw [dictInsert, if_neg ha]
      have hka : k ≠ a := fun hh => ha hh.symm
      by_cases hk : k ∈ rest.map Prod.fst
      · simp [ih, hk, hka]
      · simp [ih, hk, hka]

theorem nodup_keys_dictInsert (d : List (String × Nat)) (k : String) (v : Nat)
    (h : (d.map Prod.fst).Nodup) : ((dictInsert d k v).map Prod.fst).Nodup := by
  rw [keys_dictInsert]
  by_cases hk : k ∈ d.map Prod.fst
  · simpa [hk] using h
  · rw [if_neg hk]
    simp [List.nodup_append, h, hk]

theorem nodup_keys_loadVocabLoop (lines : List String) :
    ∀ (d : List (String × Nat)) (n : Nat), (d.map Prod.fst).Nodup →
      ((loadVocabLoop lines d n).map Prod.fst).Nodup := by
  induction lines with
  | nil => intro d n h; exact h
  | cons line rest ih =>
    intro d n h
    exact ih _ _ (nodup_keys_dictInsert _ _ _ h)

theorem nodup_keys_load_vocab (lines : List String) :
    ((load_vocab lines).map Prod.fst).Nodup :=
  nodup_keys_loadVocabLoop lines [] 0 (by simp)

theorem dictLookup_eq_some_of_mem (d : List (String × Nat)) :
    ∀ (t : String) (v : Nat), (d.map Prod.fst).Nodup → (t, v) ∈ d →
      dictLookup d t = some v := by
  induction d with
  | nil => intro t v _ hm; simp at hm
  | cons q rest ih =>
    intro t v h hm
    obtain ⟨a, b⟩ := q
    rw [List.map_cons] at h
    have h' := List.nodup_cons.mp h
    rcases List.mem_cons.mp hm with h1 | h1
    · cases h1
      simp [dictLookup]
    · have ha : a ≠ t := by
        intro hh
        subst hh
        exact h'.1 (List.mem_map.mpr ⟨(a, v), h1, rfl⟩)
      rw [dictLookup, if_neg ha]
      exact ih t v h'.2 h1

theorem mem_of_dictLookup_eq_some (d : List (String × Nat)) (t : String) (v : Nat)
    (h : dictLookup d t = some v) : (t, v) ∈ d := by
  induction d with
  | nil => simp [dictLookup] at h
  | cons q rest ih =>
    obtain ⟨a, b⟩ := q
    rw [dictLookup] at h
    by_cases ha : a = t
    · rw [if_pos ha] at h
      cases h
      subst ha
      exact List.mem_cons.mpr (Or.inl rfl)
    · rw [if_neg ha] at h
      exact List.mem_cons.mpr (Or.inr (ih h))

theorem idLookup_eq_some (inv : List (Nat × String)) (i : Nat) (t : String)
    (hm : (i, t) ∈ inv) (huniq : ∀ t', (i, t') ∈ inv → t' = t) :
    idLookup inv i = some t := by
  induction inv with
  | nil => simp at hm
  | cons q rest ih =>
    obtain ⟨j, s⟩ := q
    by_cases hj : j = i
    · subst hj
      rw [idLookup, if_pos rfl]
      exact congrArg some (huniq s (List.mem_cons.mpr (Or.inl rfl)))
    · rw [idLookup, if_neg hj]
      have hm' : (i, t) ∈ rest := by
        rcases List.mem_cons.mp hm with h1 | h1
        · exact absurd (congrArg Prod.fst h1).symm hj
        · exact h1
      exact ih hm' (fun t' ht' => huniq t' (List.mem_cons.mpr (Or.inr ht')))

theorem idLookup_eq_none (inv : List (Nat × String)) (i : Nat)
    (h : ∀ t', (i, t') ∉ inv) : idLookup inv i = none := by
  induction inv with
  | nil => rfl
  | cons q rest ih =>
    obtain ⟨j, s⟩ := q
    by_cases hj : j = i
    · subst hj
      exact absurd (List.mem_cons.mpr (Or.inl rfl)) (h s)
    · rw [idLookup, if_neg hj]
      exact ih (fun t' ht' => h t' (List.mem_cons.mpr (Or.inr ht')))

theorem mem_ids_to_tokens (vocab : List (String × Nat)) (i : Nat) (t : String) :
    (i, t) ∈ ids_to_tokens vocab ↔ (t, i) ∈ vocab := by
  unfold ids_to_tokens
  constructor
  · intro h
    obtain ⟨⟨a, b⟩, hab, hq⟩ := List.mem_map.mp h
    simp only [Prod.mk.injEq] at hq
    obtain ⟨h1, h2⟩ := hq
    subst h1
    subst h2
    exact hab
  · intro h
    exact List.mem_map.mpr ⟨(t, i), h, rfl⟩

theorem load_vocab_lookup_iff (lines : List String) (t : String) (i : Nat) :
    dictLookup (load_vocab lines) t = some i ↔ lastStripIdx lines t = some i := by
  rw [lookup_load_vocab]
  cases h : lastStripIdx lines t <;> simp

theorem idLookup_ids_to_tokens_of_lookup (lines : List String) (t : String) (i : Nat)
    (h : dictLookup (load_vocab lines) t = some i) :
    idLookup (ids_to_tokens (load_vocab lines)) i = some t := by
  apply idLookup_eq_some
  · exact (mem_ids_to_tokens _ _ _).mpr (mem_of_dictLookup_eq_some _ _ _ h)
  · intro t' ht'
    have hmem : (t', i) ∈ load_vocab lines := (mem_ids_to_tokens _ _ _).mp ht'
    have hl : dictLookup (load_vocab lines) t' = some i :=
      dictLookup_eq_some_of_mem _ t' i (nodup_keys_load_vocab lines) hmem
    have h1 := (lastStripIdx_lt lines t i ((load_vocab_lookup_iff _ _ _).mp h)).2
    have h2 := (lastStripIdx_lt lines t' i ((load_vocab_lookup_iff _ _ _).mp hl)).2
    rw [← h1, ← h2]

theorem lookupIds_ok (vocab : List (String × Nat)) (tokens : List String)
    (h : ∀ t ∈ tokens, (dictLookup vocab t).isSome) :
    ∃ ids, lookupIds vocab tokens = Except.ok ids ∧ ids.length = tokens.length := by
  induction tokens with
  | nil => exact ⟨[], rfl, rfl⟩
  | cons t ts ih =>
    obtain ⟨i, hi⟩ := Option.isSome_iff_exists.mp (h t (by simp))
    obtain ⟨ids, hids, hlen⟩ := ih (fun u hu => h u (by simp [hu]))
    refine ⟨i :: ids, ?_, by simp [hlen]⟩
    rw [lookupIds, hi, hids]

theorem convert_tokens_to_ids_of_ok (vocab : List (String × Nat)) (max_len : Nat)
    (tokens : List String) (ids : List Nat)
    (hids : lookupIds vocab tokens = Except.ok ids) :
    convert_tokens_to_ids vocab max_len tokens =
      if ids.length > max_len then
        Except.error (TokenizerError.sequenceTooLong ids.length max_len)
      else Except.ok ids := by
  unfold convert_tokens_to_ids
  rw [hids]

theorem lookupIds_singleton (vocab : List (String × Nat)) (t : String) (i : Nat)
    (h : dictLookup vocab t = some i) :
    lookupIds vocab [t] = Except.ok [i] := by
  rw [lookupIds, h, lookupIds]

theorem lookupTokens_singleton_some (inv : List (Nat × String)) (i : Nat) (t : String)
    (h : idLookup inv i = some t) :
    lookupTokens inv [i] = Except.ok [t] := by
  rw [lookupTokens, h, lookupTokens]

theorem lookupTokens_singleton_none (inv : List (Nat × String)) (i : Nat)
    (h : idLookup inv i = none) :
    lookupTokens inv [i] = Except.error (TokenizerError.invalidId i) := by
  rw [lookupTokens, h]

/-- C5: `convert_tokens_to_ids` (vocabulary backend), on tokens that are all
present in the vocabulary, fails with the sequence-length error exactly when
the number of produced ids (one per token) strictly exceeds `max_len`, and
returns the full id list — never a partial one — when the count is at most
`max_len`. -/
theorem convert_tokens_to_ids_maxlen (vocab : List (String × Nat)) (max_len : Nat)
    (tokens : List String) (h : ∀ t ∈ tokens, (dictLookup vocab t).isSome) :
    (convert_tokens_to_ids vocab max_len tokens =
        Except.error (TokenizerError.sequenceTooLong tokens.length max_len) ↔
      tokens.length > max_len) ∧
    (tokens.length ≤ max_len →
      ∃ ids, convert_tokens_to_ids vocab max_len tokens = Except.ok ids ∧
        ids.length = tokens.length) := by
  obtain ⟨ids, hids, hlen⟩ := lookupIds_ok vocab tokens h
  have hconv := convert_tokens_to_ids_of_ok vocab max_len tokens ids hids
  rw [hlen] at hconv
  constructor
  · by_cases hlt : tokens.length > max_len
    · rw [hconv, if_pos hlt]
      simp [hlt]
    · rw [hconv, if_neg hlt]
      simp [hlt]
  · intro hle
    rw [hconv, if_neg (by omega)]
    exact ⟨ids, rfl, hlen⟩

/-- Witness for `convert_tokens_to_ids_maxlen` at a one-token input with
`max_len = 1`: the id count equals `max_len`, so no error is raised. -/
theorem convert_tokens_to_ids_maxlen_witness :
    ∃ ids, convert_tokens_to_ids [("a", 0)] 1 ["a"] = Except.ok ids ∧
      ids.length = (["a"] : List String).length :=
  (convert_tokens_to_ids_maxlen [("a", 0)] 1 ["a"] (by decide)).2 (by decide)

/-- C6: round trip through the vocabulary backend: a token present in the
loaded vocabulary (its lookup succeeds, with id `i`) converts to `[i]` and
back to itself, with neither conversion failing, provided `max_len` is at
least 1.  The statement places no restriction on duplicate lines: `t` may
stem from a line occurring several times. -/
theorem vocab_round_trip (lines : List String) (t : String) (i : Nat) (max_len : Nat)
    (h : dictLookup (load_vocab lines) t = some i) (hmax : 1 ≤ max_len) :
    convert_tokens_to_ids (load_vocab lines) max_len [t] = Except.ok [i] ∧
    convert_ids_to_tokens (load_vocab lines) [i] = Except.ok [t] := by
  constructor
  · rw [convert_tokens_to_ids_of_ok _ max_len [t] [i] (lookupIds_singleton _ t i h)]
    rw [if_neg (by simp; omega)]
  · unfold convert_ids_to_tokens
    exact lookupTokens_singleton_some _ i t (idLookup_ids_to_tokens_of_lookup lines t i h)

/-- Witness for `vocab_round_trip` on a vocabulary whose first and third
lines carry the same token `a`: the round trip goes through the surviving
id 2. -/
theorem vocab_round_trip_witness :
    convert_tokens_to_ids (load_vocab ["a\n", "b\n", "a\n"]) 512 ["a"] = Except.ok [2] ∧
    convert_ids_to_tokens (load_vocab ["a\n", "b\n", "a\n"]) [2] = Except.ok ["a"] :=
  vocab_round_trip ["a\n", "b\n", "a\n"] "a" 2 512 (by decide) (by decide)

/-- C7: when line `i` and a later line `j` strip to the same token, no token
looks up to id `i` any more, the token's id is some strictly later index, and
`convert_ids_to_tokens` on the orphaned id `i` fails with `invalidId`. -/
theorem duplicate_vocab_orphaned_id (lines : List String) (i j : Nat)
    (hij : i < j) (hj : j < lines.length)
    (hdup : pyStripStr (lines.getD i "") = pyStripStr (lines.getD j "")) :
    (∀ t, dictLookup (load_vocab lines) t ≠ some i) ∧
    (∃ k, i < k ∧
      dictLookup (load_vocab lines) (pyStripStr (lines.getD i "")) = some k) ∧
    convert_ids_to_tokens (load_vocab lines) [i] =
      Except.error (TokenizerError.invalidId i) := by
  have horphan : ∀ t, dictLookup (load_vocab lines) t ≠ some i := by
    intro t hT
    have hlast := (load_vocab_lookup_iff _ _ _).mp hT
    have hget := (lastStripIdx_lt lines t i hlast).2
    exact lastStripIdx_max lines t i hlast j hij hj (by rw [← hdup, hget])
  refine ⟨horphan, ?_, ?_⟩
  · obtain ⟨k, hk, hjk⟩ := lastStripIdx_ge lines (pyStripStr (lines.getD i "")) j hj hdup.symm
    exact ⟨k, by omega, (load_vocab_lookup_iff _ _ _).mpr hk⟩
  · have hnone : idLookup (ids_to_tokens (load_vocab lines)) i = none := by
      apply idLookup_eq_none
      intro t' ht'
      have hmem : (t', i) ∈ load_vocab lines := (mem_ids_to_tokens _ _ _).mp ht'
      exact horphan t'
        (dictLookup_eq_some_of_mem _ t' i (nodup_keys_load_vocab lines) hmem)
    unfold convert_ids_to_tokens
    exact lookupTokens_singleton_none _ i hnone

/-- Witness for `duplicate_vocab_orphaned_id` on the vocabulary file lines
`a`, `b`, `a`: id 0 is orphaned, so converting it back fails. -/
theorem duplicate_vocab_orphaned_id_witness :
    convert_ids_to_tokens (load_vocab ["a\n", "b\n", "a\n"]) [0] =
      Except.error (TokenizerError.invalidId 0) :=
  (duplicate_vocab_orphaned_id ["a\n", "b\n", "a\n"] 0 2 (by decide) (by decide)
    (by decide)).2.2

/-- C3 counterexample: `load_vocab` does not strip only the line terminator.
On the single raw line `" a \x0a"` the code stores the fully stripped token
`"a"` with id 0; the token `" a "` that terminator-only stripping would
produce is not in the dictionary, and differs from what is stored. -/
theorem load_vocab_strip_counterexample :
    load_vocab [" a \n"] = [("a", 0)] ∧
    dictLookup (load_vocab [" a \n"]) " a " = none ∧
    (" a " : String) ≠ "a" := by
  refine ⟨by decide, by decide, by decide⟩

/-- C3 amended: `load_vocab` reads one token per line, strips all leading and
trailing Python whitespace from the line (the terminator included, and more
than the terminator when the line has edge blanks), keeps interior whitespace,
and assigns the 0-based line position as the id: a line whose stripped content
does not recur later looks up to its own index. -/
theorem load_vocab_strip_amended :
    (∀ (lines : List String) (i : Nat), i < lines.length →
      (∀ j, j < lines.length → i < j →
        pyStripStr (lines.getD j "") ≠ pyStripStr (lines.getD i "")) →
      dictLookup (load_vocab lines) (pyStripStr (lines.getD i "")) = some i) ∧
    pyStripStr " a\tb \r\n" = "a\tb" := by
  constructor
  · intro lines i hi hnolater
    obtain ⟨k, hk, hik⟩ := lastStripIdx_ge lines (pyStripStr (lines.getD i "")) i hi rfl
    have hkb := (lastStripIdx_lt lines _ k hk).1
    rcases Nat.lt_or_ge i k with hlt | hge
    · exact absurd (lastStripIdx_lt lines _ k hk).2 (hnolater k hkb hlt)
    · have : k = i := by omega
      subst this
      exact (load_vocab_lookup_iff _ _ _).mpr hk
  · decide

/-- Witness for `load_vocab_strip_amended`: the edge-blank line `"a \x0a"` is
stored as `"a"` under id 0. -/
theorem load_vocab_strip_amended_witness :
    dictLookup (load_vocab ["a \n", "b\n"]) (pyStripStr ((["a \n", "b\n"] : List String).getD 0 "")) = some 0 :=
  load_vocab_strip_amended.1 ["a \n", "b\n"] 0 (by decide) (by decide)

/-- C4: `WordpieceTokenizer.tokenize` on a single word-level token: a token
longer than `max_input_chars_per_word` yields exactly the unknown marker with
no segmentation attempt; otherwise greedy longest-match-first segmentation
runs with the `##` continuation marker for non-initial positions, as on the
specification's example; and when some start position has no match at any
shrinking end position the whole token collapses to the single unknown
marker, abandoning pieces already found (on `vocabAbandon`, the piece `un`
is found first and then discarded). -/
theorem wordpiece_greedy_conforms :
    (∀ (vocab : List (String × Nat)) (unk_token : String) (m : Nat) (t : String),
      t.toList ≠ [] → (∀ c ∈ t.toList, isPySpace c = false) →
      t.toList.length > m → wordpieceTokenize vocab unk_token m t = [unk_token]) ∧
    wordpieceTokenize vocabEx "[UNK]" 100 "unaffable" = ["un", "##aff", "##able"] ∧
    wordpieceTokenize vocabAbandon "[UNK]" 100 "unz" = ["[UNK]"] := by
  refine ⟨?_, by decide, by decide⟩
  intro vocab unk_token m t h1 h2 h3
  unfold wordpieceTokenize
  rw [whitespace_tokenize_single t h1 h2]
  have h3' : t.length > m := h3
  simp [h3']

/-- Witness for `wordpiece_greedy_conforms`: the 3-character token `abc`
against a limit of 2 characters becomes the unknown marker. -/
theorem wordpiece_greedy_conforms_witness :
    wordpieceTokenize vocabEx "[UNK]" 2 "abc" = ["[UNK]"] :=
  wordpiece_greedy_conforms.1 vocabEx "[UNK]" 2 "abc" (by decide) (by decide)
    (by decide)

theorem is_chinese_char_iff (cp : Nat) :
    is_chinese_char cp = true ↔ inCJKRanges cp := by
  unfold is_chinese_char
  split <;> simp_all

/-- C8: `_tokenize_chinese_chars` surrounds exactly the characters of the
eight listed CJK ranges with spaces (each becomes its own
whitespace-delimited token), leaves every other character untouched —
Hangul syllables and the Hiragana and Katakana blocks lie outside the
ranges — and on `"中国"` the basic tokenizer emits the two ideographs as
separate tokens. -/
theorem cjk_isolation :
    (∀ (l1 l2 : List Char) (c : Char), inCJKRanges c.toNat →
      cjkList (l1 ++ c :: l2) = cjkList l1 ++ ' ' :: c :: ' ' :: cjkList l2) ∧
    (∀ (l1 l2 : List Char) (c : Char), ¬ inCJKRanges c.toNat →
      cjkList (l1 ++ c :: l2) = cjkList l1 ++ c :: cjkList l2) ∧
    (∀ c : Char, (0xAC00 ≤ c.toNat ∧ c.toNat ≤ 0xD7AF) ∨
        (0x3040 ≤ c.toNat ∧ c.toNat ≤ 0x30FF) → ¬ inCJKRanges c.toNat) ∧
    basicTokenize udTest true defaultNeverSplit "中国" = ["中", "国"] := by
  refine ⟨?_, ?_, ?_, by decide⟩
  · intro l1 l2 c hc
    induction l1 with
    | nil => simp [cjkList, (is_chinese_char_iff c.toNat).mpr hc]
    | cons d rest ih =>
      by_cases hd : is_chinese_char d.toNat <;> simp [cjkList, hd, ih]
  · intro l1 l2 c hc
    have hcf : is_chinese_char c.toNat = false :=
      Bool.eq_false_iff.mpr (fun hh => hc ((is_chinese_char_iff c.toNat).mp hh))
    induction l1 with
    | nil => simp [cjkList, hcf]
    | cons d rest ih =>
      by_cases hd : is_chinese_char d.toNat <;> simp [cjkList, hd, ih]
  · intro c hc hin
    rcases hc with ⟨h1, h2⟩ | ⟨h1, h2⟩ <;> omega

/-- Witness for `cjk_isolation`: the ideograph `中` is isolated inside a
character list, while the Hangul syllable at U+AC00 is outside the CJK
ranges. -/
theorem cjk_isolation_witness :
    cjkList (['a'] ++ '中' :: ['b']) = cjkList ['a'] ++ ' ' :: '中' :: ' ' :: cjkList ['b'] ∧
    ¬ inCJKRanges (Char.ofNat 0xAC00).toNat :=
  ⟨cjk_isolation.1 ['a'] ['b'] '中' (by decide),
   cjk_isolation.2.2.1 (Char.ofNat 0xAC00) (Or.inl (by decide))⟩

theorem cleanList_all_space (ud : UData) :
    ∀ l : List Char,
      (∀ c ∈ l, is_whitespace ud c = true ∨ is_control ud c = true ∨
        c.toNat = 0 ∨ c.toNat = 0xFFFD) →
      ∀ d ∈ cleanList ud l, d = ' ' := by
  intro l
  induction l with
  | nil => intro _ d hd; simp [cleanList] at hd
  | cons c rest ih =>
    intro h d hd
    rw [cleanList] at hd
    by_cases h1 : c.toNat = 0 ∨ c.toNat = 0xFFFD ∨ is_control ud c
    · rw [if_pos h1] at hd
      exact ih (fun x hx => h x (by simp [hx])) d hd
    · rw [if_neg h1] at hd
      have hw : is_whitespace ud c = true := by
        rcases h c (by simp) with hh | hh | hh | hh
        · exact hh
        · exact absurd (Or.inr (Or.inr hh)) h1
        · exact absurd (Or.inl hh) h1
        · exact absurd (Or.inr (Or.inl hh)) h1
      rw [if_pos hw] at hd
      rcases List.mem_cons.mp hd with h2 | h2
      · exact h2
      · exact ih (fun x hx => h x (by simp [hx])) d h2

theorem cjkList_of_all_space (l : List Char) (h : ∀ c ∈ l, c = ' ') :
    cjkList l = l := by
  induction l with
  | nil => rfl
  | cons c rest ih =>
    have hc : c = ' ' := h c (by simp)
    subst hc
    rw [cjkList, if_neg (by decide)]
    rw [ih (fun x hx => h x (by simp [hx]))]

/-- C10: on an input text made only of whitespace characters, control
characters, NUL and U+FFFD (the empty text included), the facade
`BertTokenizer.tokenize` returns the empty token sequence, whatever subword
backend is configured; the function is total, so no failure is possible. -/
theorem whitespace_only_empty (ud : UData) (do_lower_case : Bool)
    (never_split : List String) (backend : String → List String) (text : String)
    (h : ∀ c ∈ text.toList, is_whitespace ud c = true ∨ is_control ud c = true ∨
      c.toNat = 0 ∨ c.toNat = 0xFFFD) :
    bertTokenize ud do_lower_case never_split backend text = [] := by
  have hclean : ∀ d ∈ cleanList ud text.toList, d = ' ' :=
    cleanList_all_space ud text.toList h
  have horig : whitespace_tokenize (tokenize_chinese_chars (clean_text ud text)) = [] := by
    apply whitespace_tokenize_allspace
    intro c hc
    have hmem : c ∈ cjkList (cleanList ud text.toList) := hc
    rw [cjkList_of_all_space _ hclean] at hmem
    rw [hclean c hmem]
    decide
  have hbt : basicTokenize ud do_lower_case never_split text =
      whitespace_tokenize (String.intercalate " "
        (List.foldl (fun acc token => acc ++ basicPerToken ud do_lower_case never_split token)
          [] (whitespace_tokenize (tokenize_chinese_chars (clean_text ud text))))) := rfl
  have hbasic : basicTokenize ud do_lower_case never_split text = [] := by
    rw [hbt, horig]
    rfl
  unfold bertTokenize
  rw [hbasic]
  rfl

/-- Witness for `whitespace_only_empty`: a text of space, tab and newline
tokenizes to nothing under the test Unicode table, whatever the backend
does. -/
theorem whitespace_only_empty_witness :
    bertTokenize udTest true defaultNeverSplit (fun x => [x]) " \t\n" = [] :=
  whitespace_only_empty udTest true defaultNeverSplit (fun x => [x]) " \t\n"
    (by decide)

/-- C1 counterexample: with default reserved tokens and case-folding enabled,
tokenizing `"[CLS]!"` does not yield `["[CLS]", "!"]`.  The reserved-token
guard compares whole whitespace-delimited tokens, and the whitespace-split
token here is `"[CLS]!"`, which is not reserved, so it is lower-cased and
split on its brackets. -/
theorem reserved_token_adjacent_punct_counterexample :
    basicTokenize udTest true defaultNeverSplit "[CLS]!" = ["[", "cls", "]", "!"] ∧
    basicTokenize udTest true defaultNeverSplit "[CLS]!" ≠ ["[CLS]", "!"] := by
  refine ⟨by decide, by decide⟩

/-- C1 amended: a token of the reserved set passes through the per-token
transform of `BasicTokenizer.tokenize` unchanged — neither lower-cased,
accent-stripped, nor punctuation-split — whenever it appears as a whole
whitespace-delimited token; punctuation separated from the reserved token by
whitespace is split off, as in `"[CLS] !"`, but punctuation directly attached
to it defeats the guard: `"[CLS]!"` becomes `["[", "cls", "]", "!"]`. -/
theorem reserved_token_passthrough :
    (∀ (ud : UData) (do_lower_case : Bool) (never_split : List String) (token : String),
      never_split.contains token = true →
      basicPerToken ud do_lower_case never_split token = [token]) ∧
    basicTokenize udTest true defaultNeverSplit "[CLS] !" = ["[CLS]", "!"] ∧
    basicTokenize udTest true defaultNeverSplit "[CLS]!" = ["[", "cls", "]", "!"] := by
  refine ⟨?_, by decide, by decide⟩
  intro ud do_lower_case never_split token h
  have hmem : token ∈ never_split := by simpa using h
  simp [basicPerToken, run_split_on_punc, hmem]

/-- Witness for `reserved_token_passthrough`: the reserved token `"[CLS]"`
survives the per-token transform untouched. -/
theorem reserved_token_passthrough_witness :
    basicPerToken udTest true defaultNeverSplit "[CLS]" = ["[CLS]"] :=
  reserved_token_passthrough.1 udTest true defaultNeverSplit "[CLS]" (by decide)

/-- C9: `encode_as_ids` is exactly the double pass — optional lower-casing,
external encode, correction-and-decode through `decode_ids`, then a second
external encode — and this is observably different from a single encode
call: on the model `spmN` the double pass returns `[7]` while the direct
encode returns `[5]`. -/
theorem unigram_double_encode :
    (∀ (t : SentencePieceTokenizer) (s : String),
      encode_as_ids t s =
        t.spm.encodeAsIds (decode_ids t (t.spm.encodeAsIds
          (if t.do_lower_case then strLower s else s)))) ∧
    encode_as_ids tokN "a" ≠ tokN.spm.encodeAsIds "a" := by
  refine ⟨fun t s => rfl, by decide⟩

/-- C2 counterexample: the final re-encode of `encode_as_ids` is returned
without passing through `__correct_unk_id`, so the adapter can surface the
external placeholder id: on the model `spmM`, `encode_as_ids` returns exactly
the placeholder id, which differs from the unknown-token id. -/
theorem unigram_encode_surfaces_placeholder_counterexample :
    encode_as_ids tokM "a" = [unused_token_id tokM] ∧
    unused_token_id tokM ≠ unk_token_id tokM := by
  refine ⟨by decide, by decide⟩

theorem decode_ids_eq (t : SentencePieceTokenizer) (ids : List Nat) :
    decode_ids t ids =
      if t.wordpiece_mode then
        String.mk (wpSubAux t.unk_token.toList
          (t.spm.decodeIds (ids.map (correct_unk_id t))).toList [])
      else t.spm.decodeIds (ids.map (correct_unk_id t)) := rfl

theorem correct_unk_id_idem (t : SentencePieceTokenizer) (i : Nat) :
    correct_unk_id t (correct_unk_id t i) = correct_unk_id t i := by
  by_cases h : i = unused_token_id t <;> simp [correct_unk_id, h]

/-- C2 amended: the correction of the placeholder id holds on the paths where
the code applies it: `decode_ids` is invariant under pre-correcting its input
ids, `id_to_piece` is invariant under pre-correcting its input id, and
`piece_to_id` never returns the placeholder id (when that id differs from the
unknown id).  `encode_as_ids`, by contrast, returns the second external
encode uncorrected (see the counterexample). -/
theorem unigram_unk_id_correction :
    (∀ (t : SentencePieceTokenizer) (ids : List Nat),
      decode_ids t ids = decode_ids t (ids.map (correct_unk_id t))) ∧
    (∀ (t : SentencePieceTokenizer) (i : Nat),
      id_to_piece t i = id_to_piece t (correct_unk_id t i)) ∧
    (∀ (t : SentencePieceTokenizer) (p : String),
      unused_token_id t ≠ unk_token_id t →
      piece_to_id t p ≠ unused_token_id t) := by
  refine ⟨?_, ?_, ?_⟩
  · intro t ids
    have hmap : (ids.map (correct_unk_id t)).map (correct_unk_id t) =
        ids.map (correct_unk_id t) := by
      rw [List.map_map]
      exact List.map_congr_left (fun i _ => correct_unk_id_idem t i)
    rw [decode_ids_eq, decode_ids_eq, hmap]
  · intro t i
    unfold id_to_piece
    rw [correct_unk_id_idem t i]
  · intro t p h
    show correct_unk_id t
      (t.spm.pieceToId (if t.do_lower_case then strLower p else p)) ≠
        unused_token_id t
    generalize t.spm.pieceToId (if t.do_lower_case then strLower p else p) = q
    by_cases hu : q = unused_token_id t
    · rw [correct_unk_id, if_pos hu]
      exact fun hh => h hh.symm
    · rw [correct_unk_id, if_neg hu]
      exact hu

/-- Witness for `unigram_unk_id_correction`: on the model `spmM`, looking up
an ordinary piece never yields the placeholder id. -/
theorem unigram_unk_id_correction_witness :
    piece_to_id tokM "q" ≠ unused_token_id tokM :=
  unigram_unk_id_correction.2.2 tokM "q" (by decide)
